import Mathlib

/-!
Shallow embedding of the github-stats pipeline (src/github_stats.py) and
verification of its specified properties.  Machine integers are modelled by
Nat, money-free ratios by Rat, timestamps by explicit calendar records, the
two defaultdict accumulators by insertion-ordered association lists, and the
HTTP collaborator by an explicit server model together with a trace of the
requests issued.
-/

namespace GithubStats

/-- Calendar day, the YYYY-MM-DD portion of a timestamp. -/
structure Day where
  year : ℕ
  month : ℕ
  day : ℕ
deriving DecidableEq, Repr

/-- Authored timestamp with second precision, as parsed by
datetime.strptime from the API date string. -/
structure DateTime where
  year : ℕ
  month : ℕ
  day : ℕ
  hour : ℕ
  minute : ℕ
  second : ℕ
deriving DecidableEq, Repr

def isLeap (y : ℕ) : Bool := y % 4 == 0 && (y % 100 != 0 || y % 400 == 0)

def daysBeforeMonth (y m : ℕ) : ℕ :=
  let base :=
    match m with
    | 1 => 0
    | 2 => 31
    | 3 => 59
    | 4 => 90
    | 5 => 120
    | 6 => 151
    | 7 => 181
    | 8 => 212
    | 9 => 243
    | 10 => 273
    | 11 => 304
    | _ => 334
  if 3 ≤ m then base + (if isLeap y then 1 else 0) else base

/-- Proleptic Gregorian ordinal of a date, with day 1 = 0001-01-01, the
value of date.toordinal in the Python standard library. -/
def toOrdinal (y m d : ℕ) : ℕ :=
  365 * (y - 1) + (y - 1) / 4 - (y - 1) / 100 + (y - 1) / 400 + daysBeforeMonth y m + d

/-- Day of week with Monday = 0 and Sunday = 6, the value of
datetime.weekday; 0001-01-01 was a Monday. -/
def weekdayOf (d : Day) : ℕ := (toOrdinal d.year d.month d.day + 6) % 7

/-- Absolute second count of a timestamp, used to model comparison of
datetimes and total_seconds of their differences. -/
def toSeconds (t : DateTime) : ℕ :=
  toOrdinal t.year t.month t.day * 86400 + t.hour * 3600 + t.minute * 60 + t.second

/-- Day key of a timestamp: the date portion, as produced by
strftime with format YYYY-MM-DD. -/
def dayOf (t : DateTime) : Day := ⟨t.year, t.month, t.day⟩

def dtLe (a b : DateTime) : Bool := decide (toSeconds a ≤ toSeconds b)

def dtLt (a b : DateTime) : Bool := decide (toSeconds a < toSeconds b)

/-- Per-key running totals: the defaultdict value
with keys additions, deletions, commits, each starting at 0. -/
structure Bucket where
  additions : ℕ
  deletions : ℕ
  commits : ℕ
deriving DecidableEq, Repr

def Bucket.empty : Bucket := ⟨0, 0, 0⟩

/-- One contribution to a bucket: additions += a, deletions += d, commits += 1. -/
def bump (b : Bucket) (a d : ℕ) : Bucket := ⟨b.additions + a, b.deletions + d, b.commits + 1⟩

/-- Get-or-create update of an insertion-ordered association list, the
behaviour of writing through a defaultdict entry. -/
def updBucket {K : Type} [DecidableEq K] (m : List (K × Bucket)) (k : K) (a d : ℕ) :
    List (K × Bucket) :=
  match m with
  | [] => [(k, bump Bucket.empty a d)]
  | (k', b) :: rest => if k' = k then (k', bump b a d) :: rest else (k', b) :: updBucket rest k a d

/-- A collected commit as consumed by the aggregation loop: its sha, the
repository name recovered from its url, and its authored timestamp. -/
structure CommitEntry where
  sha : String
  repoName : String
  date : DateTime
deriving DecidableEq, Repr

/-- Result of the per-commit detail request; the additions and deletions
fields are read only when the status is 200. -/
structure DetailResult where
  status : ℕ
  additions : ℕ
  deletions : ℕ
deriving DecidableEq, Repr

/-- The aggregated state built by get_commit_stats: grand totals, the two
bucket maps, and the collected timestamp sequence. -/
structure Snapshot where
  totalAdditions : ℕ
  totalDeletions : ℕ
  repoStats : List (String × Bucket)
  dailyStats : List (Day × Bucket)
  commitTimes : List DateTime
deriving DecidableEq, Repr

/-- One iteration of the aggregation loop.  The authored timestamp is
appended before the status check, exactly as in the source, so failed
lookups still contribute their timestamp. -/
def processCommit (s : Snapshot) (cd : CommitEntry × DetailResult) : Snapshot :=
  let s' := { s with commitTimes := s.commitTimes ++ [cd.1.date] }
  if cd.2.status = 200 then
    { s' with
      totalAdditions := s'.totalAdditions + cd.2.additions
      totalDeletions := s'.totalDeletions + cd.2.deletions
      repoStats := updBucket s'.repoStats cd.1.repoName cd.2.additions cd.2.deletions
      dailyStats := updBucket s'.dailyStats (dayOf cd.1.date) cd.2.additions cd.2.deletions }
  else s'

/-- The aggregation stage of get_commit_stats over the collected commits,
each paired with the response of its detail lookup. -/
def get_commit_stats (commits : List (CommitEntry × DetailResult)) : Snapshot :=
  commits.foldl processCommit ⟨0, 0, [], [], []⟩

/-- The subsequence of commits whose detail lookup succeeded. -/
def successful (l : List (CommitEntry × DetailResult)) : List (CommitEntry × DetailResult) :=
  l.filter (fun cd => cd.2.status == 200)

def bucketAddSum {K : Type} (m : List (K × Bucket)) : ℕ := (m.map (fun kb => kb.2.additions)).sum

def bucketDelSum {K : Type} (m : List (K × Bucket)) : ℕ := (m.map (fun kb => kb.2.deletions)).sum

def bucketComSum {K : Type} (m : List (K × Bucket)) : ℕ := (m.map (fun kb => kb.2.commits)).sum

/-- Input of analyze_productivity: the grand totals merged with the
snapshot fields, as assembled by the caller in main. -/
structure StatsInput where
  additions : ℕ
  deletions : ℕ
  repoStats : List (String × Bucket)
  dailyStats : List (Day × Bucket)
  commitTimes : List DateTime
deriving DecidableEq, Repr

def toStatsInput (s : Snapshot) : StatsInput :=
  ⟨s.totalAdditions, s.totalDeletions, s.repoStats, s.dailyStats, s.commitTimes⟩

/-- Percentage value: either a finite rational or the infinite sentinel
produced by the float inf literal. -/
inductive Pct where
  | fin : ℚ → Pct
  | inf : Pct
deriving DecidableEq, Repr

/-- The percentage-change pattern used four times by analyze_productivity:
the formula when the previous value is positive, the infinite sentinel
otherwise. -/
def pctChange (curr prev : ℚ) : Pct :=
  if 0 < prev then Pct.fin ((curr - prev) / prev * 100) else Pct.inf

/-- Daily average changes: total over number of day keys, 0 when the day
map is empty. -/
def dailyAvg (s : StatsInput) : ℚ :=
  if s.dailyStats.isEmpty then 0
  else ((s.additions + s.deletions : ℕ) : ℚ) / (s.dailyStats.length : ℚ)

/-- One iteration of the weekend-versus-weekday loop over the day map. -/
def weekStep (acc : ℕ × ℕ) (kb : Day × Bucket) : ℕ × ℕ :=
  if 5 ≤ weekdayOf kb.1 then (acc.1 + (kb.2.additions + kb.2.deletions), acc.2)
  else (acc.1, acc.2 + (kb.2.additions + kb.2.deletions))

def weekSplit (l : List (Day × Bucket)) : ℕ × ℕ := l.foldl weekStep (0, 0)

/-- Consecutive timestamp differences in processing order, in seconds. -/
def commitIntervals (ts : List DateTime) : List ℤ :=
  (ts.tail.zip ts).map (fun q => (toSeconds q.1 : ℤ) - (toSeconds q.2 : ℤ))

/-- The commit-frequency block: with 2 or more timestamps it computes the
mean interval and commits over distinct days; the latter divides by the
number of day keys and is undefined (none, a ZeroDivisionError in the
source) when that count is 0; with fewer than 2 timestamps both are 0. -/
def commitCadence (s : StatsInput) : Option (ℚ × ℚ) :=
  if 1 < s.commitTimes.length then
    if s.dailyStats.length = 0 then none
    else
      some ((((commitIntervals s.commitTimes).sum : ℤ) : ℚ) / ((commitIntervals s.commitTimes).length : ℚ),
        (s.commitTimes.length : ℚ) / (s.dailyStats.length : ℚ))
  else some (0, 0)

/-- Stable insertion into a list kept in descending order of the second
component: the new element stops in front of the first element whose total
it reaches, hence behind every earlier-inserted element of equal total. -/
def insertByDesc (x : String × ℕ) : List (String × ℕ) → List (String × ℕ)
  | [] => [x]
  | y :: ys => if y.2 ≤ x.2 then x :: y :: ys else y :: insertByDesc x ys

/-- Stable descending sort by the second component, the behaviour of
list.sort with a key and reverse=True. -/
def sortDesc : List (String × ℕ) → List (String × ℕ)
  | [] => []
  | x :: xs => insertByDesc x (sortDesc xs)

/-- The (repository, additions+deletions) pairs built from the repo map in
its insertion order. -/
def repoActivity (s : StatsInput) : List (String × ℕ) :=
  s.repoStats.map (fun kb => (kb.1, kb.2.additions + kb.2.deletions))

/-- The dictionary returned by analyze_productivity, field per key. -/
structure Report where
  total_change_percentage : Pct
  additions_change_percentage : Pct
  deletions_change_percentage : Pct
  daily_average_changes : ℚ
  daily_average_change_percentage : Pct
  weekend_activity : ℕ
  weekday_activity : ℕ
  weekend_percentage : ℚ
  average_commit_interval_minutes : ℚ
  commits_per_day : ℚ
  most_active_repositories : List (String × ℕ)
deriving DecidableEq, Repr

/-- The analyzer.  It returns none exactly when the cadence block divides
by zero, which in the source raises and aborts the whole call. -/
def analyze_productivity (c p : StatsInput) : Option Report :=
  (commitCadence c).map (fun q =>
    { total_change_percentage :=
        pctChange ((c.additions + c.deletions : ℕ) : ℚ) ((p.additions + p.deletions : ℕ) : ℚ)
      additions_change_percentage := pctChange (c.additions : ℚ) (p.additions : ℚ)
      deletions_change_percentage := pctChange (c.deletions : ℚ) (p.deletions : ℚ)
      daily_average_changes := dailyAvg c
      daily_average_change_percentage := pctChange (dailyAvg c) (dailyAvg p)
      weekend_activity := (weekSplit c.dailyStats).1
      weekday_activity := (weekSplit c.dailyStats).2
      weekend_percentage :=
        if 0 < (weekSplit c.dailyStats).1 + (weekSplit c.dailyStats).2 then
          ((weekSplit c.dailyStats).1 : ℚ) /
            (((weekSplit c.dailyStats).1 : ℚ) + ((weekSplit c.dailyStats).2 : ℚ)) * 100
        else 0
      average_commit_interval_minutes := q.1 / 60
      commits_per_day := q.2
      most_active_repositories := (sortDesc (repoActivity c)).take 5 })

/-- A commit as stored by the upstream commit database. -/
structure Commit where
  sha : String
  repo : String
  author : String
  date : DateTime
deriving DecidableEq, Repr

/-- Network requests issued by the collector, recorded to settle the
claims about rejection before any network call. -/
inductive Req where
  | repoList (org : String) (page : ℕ)
  | commitList (org repo author : String) (since until_ : DateTime) (page : ℕ)
deriving DecidableEq, Repr

/-- Upstream API model: the repository names of the organization, the
commit database, and whether the endpoint treats its until parameter
inclusively (the source hands the parameter through and never
post-filters, so this flag decides boundary behaviour). -/
structure ServerDB where
  repos : List String
  commits : List Commit
  untilInclusive : Bool
deriving Repr

/-- Page p (1-based) of a collection, 100 items per page. -/
def pageOf {α : Type} (l : List α) (p : ℕ) : List α := (l.drop ((p - 1) * 100)).take 100

/-- Server-side commit listing for one repository: filter by repository,
author and the since/until window, whose upper end is inclusive or strict
according to the endpoint semantics flag. -/
def serverListCommits (db : ServerDB) (repo author : String) (since until_ : DateTime) :
    List Commit :=
  db.commits.filter (fun c =>
    c.repo == repo && c.author == author && dtLe since c.date &&
      (if db.untilInclusive then dtLe c.date until_ else dtLt c.date until_))

/-- The paginated-fetch loop: request increasing page numbers from 1 and
concatenate until an empty page arrives.  The fuel argument only bounds
the recursion; every use supplies enough fuel for the chunked server. -/
def fetchPages {α : Type} (serve : ℕ → List α) (rq : ℕ → Req) : ℕ → ℕ → List Req × List α
  | _, 0 => ([], [])
  | p, fuel + 1 =>
    if (serve p).isEmpty then ([rq p], [])
    else
      (rq p :: (fetchPages serve rq (p + 1) fuel).1,
        serve p ++ (fetchPages serve rq (p + 1) fuel).2)

/-- Repository enumeration with its request trace. -/
def get_org_repos (db : ServerDB) (org : String) : List Req × List String :=
  fetchPages (pageOf db.repos) (fun p => Req.repoList org p) 1 (db.repos.length + 1)

/-- Commit listing for one repository with its request trace. -/
def fetchRepoCommits (db : ServerDB) (org username : String) (s e : DateTime) (repo : String) :
    List Req × List Commit :=
  fetchPages (pageOf (serverListCommits db repo username s e))
    (fun p => Req.commitList org repo username s e p) 1
    ((serverListCommits db repo username s e).length + 1)

/-- The collector: enumerate repositories, then list each repository's
commits in the window, concatenating in repository order then page order.
No date validation happens and no post-filter is applied; the request
trace is returned alongside the commits. -/
def get_user_commits (db : ServerDB) (org username : String) (start_date end_date : DateTime) :
    List Req × List Commit :=
  (get_org_repos db org).2.foldl
    (fun acc repo =>
      (acc.1 ++ (fetchRepoCommits db org username start_date end_date repo).1,
        acc.2 ++ (fetchRepoCommits db org username start_date end_date repo).2))
    ((get_org_repos db org).1, [])

/-- Repo-map component of one aggregation step, used to relate the full
fold to a fold on the repo map alone. -/
def stepRepo (m : List (String × Bucket)) (cd : CommitEntry × DetailResult) :
    List (String × Bucket) :=
  if cd.2.status = 200 then updBucket m cd.1.repoName cd.2.additions cd.2.deletions else m

/-- Day-map component of one aggregation step. -/
def stepDaily (m : List (Day × Bucket)) (cd : CommitEntry × DetailResult) :
    List (Day × Bucket) :=
  if cd.2.status = 200 then updBucket m (dayOf cd.1.date) cd.2.additions cd.2.deletions else m

/-- Concrete instants used by the witnesses: midnight of 0001-01-01 and
one and three minutes later, and the first instants of the next two
months. -/
def T0 : DateTime := ⟨1, 1, 1, 0, 0, 0⟩

def T1 : DateTime := ⟨1, 1, 1, 0, 1, 0⟩

def T2 : DateTime := ⟨1, 1, 1, 0, 3, 0⟩

def Tfeb : DateTime := ⟨1, 2, 1, 0, 0, 0⟩

def Tmar : DateTime := ⟨1, 3, 1, 0, 0, 0⟩

/-- Snapshot input with no activity at all. -/
def zeroIn : StatsInput := ⟨0, 0, [], [], []⟩

/-- Two collected commits whose detail lookups both fail with status 500. -/
def cFail1 : CommitEntry × DetailResult := (⟨"a1", "r", T0⟩, ⟨500, 3, 4⟩)

def cFail2 : CommitEntry × DetailResult := (⟨"a2", "r", T1⟩, ⟨500, 5, 6⟩)

/-- Current snapshot of the cadence scenario: three commits at t, t+60s
and t+180s in collection order, one recorded day. -/
def c6In : StatsInput := ⟨0, 0, [], [(⟨1, 1, 1⟩, ⟨1, 0, 3⟩)], [T0, T1, T2]⟩

/-- Report produced for the cadence scenario. -/
def rep6 : Report := ⟨.inf, .inf, .inf, 0, .inf, 0, 1, 0, 3 / 2, 3, []⟩

/-- Report produced on two empty snapshots. -/
def rep0 : Report := ⟨.inf, .inf, .inf, 0, .inf, 0, 0, 0, 0, 0, []⟩

/-- Current snapshot exercising the ranking: two repositories tie on total
1 and one repository has total 2. -/
def c8In : StatsInput :=
  ⟨0, 0, [("a", ⟨1, 0, 0⟩), ("b", ⟨1, 0, 0⟩), ("c", ⟨2, 0, 0⟩)], [], []⟩

/-- Report produced for the ranking snapshot. -/
def rep8 : Report := ⟨.inf, .inf, .inf, 0, .inf, 0, 0, 0, 0, 0, [("c", 2), ("a", 1), ("b", 1)]⟩

/-- Current snapshot with all activity on a Saturday. -/
def c7In : StatsInput := ⟨2, 1, [], [(⟨1, 1, 6⟩, ⟨2, 1, 0⟩)], []⟩

/-- Report produced for the Saturday snapshot. -/
def rep7 : Report := ⟨.inf, .inf, .inf, 3, .inf, 3, 0, 100, 0, 0, []⟩

/-- Boundary commit authored exactly at the first instant of the second
month, and a commit strictly inside the first month. -/
def cBoundary : Commit := ⟨"s1", "r", "u", Tfeb⟩

def cInside : Commit := ⟨"s0", "r", "u", T0⟩

/-- Upstream whose until parameter is inclusive. -/
def dbInc : ServerDB := ⟨["r"], [cBoundary], true⟩

/-- Upstream whose until parameter is strict. -/
def dbExc : ServerDB := ⟨["r"], [cBoundary, cInside], false⟩

/-- Sum of additions+deletions over the weekend day keys (Saturday and
Sunday), the specified value of the weekend accumulator. -/
def weekendSum (l : List (Day × Bucket)) : ℕ :=
  ((l.filter (fun kb => decide (5 ≤ weekdayOf kb.1))).map
    (fun kb => kb.2.additions + kb.2.deletions)).sum

/-- Sum of additions+deletions over the weekday day keys (Monday to
Friday). -/
def weekdaySum (l : List (Day × Bucket)) : ℕ :=
  ((l.filter (fun kb => decide (weekdayOf kb.1 < 5))).map
    (fun kb => kb.2.additions + kb.2.deletions)).sum

lemma processCommit_totalAdditions (s : Snapshot) (cd : CommitEntry × DetailResult) :
    (processCommit s cd).totalAdditions =
      s.totalAdditions + (if cd.2.status = 200 then cd.2.additions else 0) := by
  unfold processCommit
  by_cases h : cd.2.status = 200 <;> simp [h]

lemma processCommit_totalDeletions (s : Snapshot) (cd : CommitEntry × DetailResult) :
    (processCommit s cd).totalDeletions =
      s.totalDeletions + (if cd.2.status = 200 then cd.2.deletions else 0) := by
  unfold processCommit
  by_cases h : cd.2.status = 200 <;> simp [h]

lemma processCommit_repoStats (s : Snapshot) (cd : CommitEntry × DetailResult) :
    (processCommit s cd).repoStats = stepRepo s.repoStats cd := by
  unfold processCommit stepRepo
  by_cases h : cd.2.status = 200 <;> simp [h]

lemma processCommit_dailyStats (s : Snapshot) (cd : CommitEntry × DetailResult) :
    (processCommit s cd).dailyStats = stepDaily s.dailyStats cd := by
  unfold processCommit stepDaily
  by_cases h : cd.2.status = 200 <;> simp [h]

lemma processCommit_commitTimes (s : Snapshot) (cd : CommitEntry × DetailResult) :
    (processCommit s cd).commitTimes = s.commitTimes ++ [cd.1.date] := by
  unfold processCommit
  by_cases h : cd.2.status = 200 <;> simp [h]

lemma bucketAddSum_updBucket {K : Type} [DecidableEq K] (m : List (K × Bucket)) (k : K)
    (a d : ℕ) : bucketAddSum (updBucket m k a d) = bucketAddSum m + a := by
  induction m with
  | nil => simp [updBucket, bucketAddSum, bump, Bucket.empty]
  | cons kb rest ih =>
    obtain ⟨k', b⟩ := kb
    by_cases h : k' = k <;> simp [updBucket, h, bucketAddSum, bump] at ih ⊢ <;> omega

lemma bucketDelSum_updBucket {K : Type} [DecidableEq K] (m : List (K × Bucket)) (k : K)
    (a d : ℕ) : bucketDelSum (updBucket m k a d) = bucketDelSum m + d := by
  induction m with
  | nil => simp [updBucket, bucketDelSum, bump, Bucket.empty]
  | cons kb rest ih =>
    obtain ⟨k', b⟩ := kb
    by_cases h : k' = k <;> simp [updBucket, h, bucketDelSum, bump] at ih ⊢ <;> omega

lemma bucketComSum_updBucket {K : Type} [DecidableEq K] (m : List (K × Bucket)) (k : K)
    (a d : ℕ) : bucketComSum (updBucket m k a d) = bucketComSum m + 1 := by
  induction m with
  | nil => simp [updBucket, bucketComSum, bump, Bucket.empty]
  | cons kb rest ih =>
    obtain ⟨k', b⟩ := kb
    by_cases h : k' = k <;> simp [updBucket, h, bucketComSum, bump] at ih ⊢ <;> omega

lemma successful_nil : successful [] = [] := rfl

lemma successful_cons (cd : CommitEntry × DetailResult) (t : List (CommitEntry × DetailResult)) :
    successful (cd :: t) =
      if cd.2.status = 200 then cd :: successful t else successful t := by
  by_cases h : cd.2.status = 200 <;> simp [successful, List.filter_cons, h]

lemma foldl_totalAdditions (l : List (CommitEntry × DetailResult)) :
    ∀ s : Snapshot, (l.foldl processCommit s).totalAdditions =
      s.totalAdditions + ((successful l).map (fun cd => cd.2.additions)).sum := by
  induction l with
  | nil => intro s; simp [successful]
  | cons cd t ih =>
    intro s
    rw [List.foldl_cons, ih, processCommit_totalAdditions, successful_cons]
    by_cases h : cd.2.status = 200 <;> simp [h] <;> omega

lemma foldl_totalDeletions (l : List (CommitEntry × DetailResult)) :
    ∀ s : Snapshot, (l.foldl processCommit s).totalDeletions =
      s.totalDeletions + ((successful l).map (fun cd => cd.2.deletions)).sum := by
  induction l with
  | nil => intro s; simp [successful]
  | cons cd t ih =>
    intro s
    rw [List.foldl_cons, ih, processCommit_totalDeletions, successful_cons]
    by_cases h : cd.2.status = 200 <;> simp [h] <;> omega

lemma foldl_commitTimes (l : List (CommitEntry × DetailResult)) :
    ∀ s : Snapshot, (l.foldl processCommit s).commitTimes =
      s.commitTimes ++ l.map (fun cd => cd.1.date) := by
  induction l with
  | nil => intro s; simp
  | cons cd t ih =>
    intro s
    rw [List.foldl_cons, ih, processCommit_commitTimes]
    simp

lemma foldl_repoStats (l : List (CommitEntry × DetailResult)) :
    ∀ s : Snapshot, (l.foldl processCommit s).repoStats = l.foldl stepRepo s.repoStats := by
  induction l with
  | nil => intro s; rfl
  | cons cd t ih =>
    intro s
    rw [List.foldl_cons, ih, processCommit_repoStats, List.foldl_cons]

lemma foldl_dailyStats (l : List (CommitEntry × DetailResult)) :
    ∀ s : Snapshot, (l.foldl processCommit s).dailyStats = l.foldl stepDaily s.dailyStats := by
  induction l with
  | nil => intro s; rfl
  | cons cd t ih =>
    intro s
    rw [List.foldl_cons, ih, processCommit_dailyStats, List.foldl_cons]

lemma foldl_stepRepo_successful (l : List (CommitEntry × DetailResult)) :
    ∀ m, (successful l).foldl stepRepo m = l.foldl stepRepo m := by
  induction l with
  | nil => intro m; rfl
  | cons cd t ih =>
    intro m
    rw [successful_cons]
    by_cases h : cd.2.status = 200
    · simp only [if_pos h, List.foldl_cons, ih]
    · simp only [if_neg h, List.foldl_cons, ih, stepRepo, if_neg h]

lemma foldl_stepDaily_successful (l : List (CommitEntry × DetailResult)) :
    ∀ m, (successful l).foldl stepDaily m = l.foldl stepDaily m := by
  induction l with
  | nil => intro m; rfl
  | cons cd t ih =>
    intro m
    rw [successful_cons]
    by_cases h : cd.2.status = 200
    · simp only [if_pos h, List.foldl_cons, ih]
    · simp only [if_neg h, List.foldl_cons, ih, stepDaily, if_neg h]

lemma successful_idem (l : List (CommitEntry × DetailResult)) :
    successful (successful l) = successful l := by
  induction l with
  | nil => rfl
  | cons cd t ih =>
    rw [successful_cons]
    by_cases h : cd.2.status = 200
    · rw [if_pos h, successful_cons, if_pos h, ih]
    · rw [if_neg h, ih]

lemma foldl_repoAddSum (l : List (CommitEntry × DetailResult)) :
    ∀ m : List (String × Bucket), bucketAddSum (l.foldl stepRepo m) =
      bucketAddSum m + ((successful l).map (fun cd => cd.2.additions)).sum := by
  induction l with
  | nil => intro m; simp [successful]
  | cons cd t ih =>
    intro m
    rw [List.foldl_cons, ih, successful_cons]
    by_cases h : cd.2.status = 200 <;>
      simp [stepRepo, h, bucketAddSum_updBucket] <;> omega

lemma foldl_repoDelSum (l : List (CommitEntry × DetailResult)) :
    ∀ m : List (String × Bucket), bucketDelSum (l.foldl stepRepo m) =
      bucketDelSum m + ((successful l).map (fun cd => cd.2.deletions)).sum := by
  induction l with
  | nil => intro m; simp [successful]
  | cons cd t ih =>
    intro m
    rw [List.foldl_cons, ih, successful_cons]
    by_cases h : cd.2.status = 200 <;>
      simp [stepRepo, h, bucketDelSum_updBucket] <;> omega

lemma foldl_repoComSum (l : List (CommitEntry × DetailResult)) :
    ∀ m : List (String × Bucket), bucketComSum (l.foldl stepRepo m) =
      bucketComSum m + (successful l).length := by
  induction l with
  | nil => intro m; simp [successful]
  | cons cd t ih =>
    intro m
    rw [List.foldl_cons, ih, successful_cons]
    by_cases h : cd.2.status = 200 <;>
      simp [stepRepo, h, bucketComSum_updBucket] <;> omega

lemma foldl_dailyAddSum (l : List (CommitEntry × DetailResult)) :
    ∀ m : List (Day × Bucket), bucketAddSum (l.foldl stepDaily m) =
      bucketAddSum m + ((successful l).map (fun cd => cd.2.additions)).sum := by
  induction l with
  | nil => intro m; simp [successful]
  | cons cd t ih =>
    intro m
    rw [List.foldl_cons, ih, successful_cons]
    by_cases h : cd.2.status = 200 <;>
      simp [stepDaily, h, bucketAddSum_updBucket] <;> omega

lemma foldl_dailyDelSum (l : List (CommitEntry × DetailResult)) :
    ∀ m : List (Day × Bucket), bucketDelSum (l.foldl stepDaily m) =
      bucketDelSum m + ((successful l).map (fun cd => cd.2.deletions)).sum := by
  induction l with
  | nil => intro m; simp [successful]
  | cons cd t ih =>
    intro m
    rw [List.foldl_cons, ih, successful_cons]
    by_cases h : cd.2.status = 200 <;>
      simp [stepDaily, h, bucketDelSum_updBucket] <;> omega

lemma foldl_dailyComSum (l : List (CommitEntry × DetailResult)) :
    ∀ m : List (Day × Bucket), bucketComSum (l.foldl stepDaily m) =
      bucketComSum m + (successful l).length := by
  induction l with
  | nil => intro m; simp [successful]
  | cons cd t ih =>
    intro m
    rw [List.foldl_cons, ih, successful_cons]
    by_cases h : cd.2.status = 200 <;>
      simp [stepDaily, h, bucketComSum_updBucket] <;> omega

/-- Claim C1: conservation of the aggregator.  The grand total additions
equal the sum of additions over successfully detailed commits, and also
the sum over the repo buckets and the sum over the day buckets; the same
holds for deletions, and bucket commit counts sum to the number of
successfully detailed commits. -/
theorem get_commit_stats_conservation (commits : List (CommitEntry × DetailResult)) :
    (get_commit_stats commits).totalAdditions =
        ((successful commits).map (fun cd => cd.2.additions)).sum ∧
      (get_commit_stats commits).totalDeletions =
        ((successful commits).map (fun cd => cd.2.deletions)).sum ∧
      bucketAddSum (get_commit_stats commits).repoStats =
        (get_commit_stats commits).totalAdditions ∧
      bucketDelSum (get_commit_stats commits).repoStats =
        (get_commit_stats commits).totalDeletions ∧
      bucketComSum (get_commit_stats commits).repoStats = (successful commits).length ∧
      bucketAddSum (get_commit_stats commits).dailyStats =
        (get_commit_stats commits).totalAdditions ∧
      bucketDelSum (get_commit_stats commits).dailyStats =
        (get_commit_stats commits).totalDeletions ∧
      bucketComSum (get_commit_stats commits).dailyStats = (successful commits).length := by
  unfold get_commit_stats
  rw [foldl_totalAdditions, foldl_totalDeletions, foldl_repoStats, foldl_dailyStats,
    foldl_repoAddSum, foldl_repoDelSum, foldl_repoComSum, foldl_dailyAddSum,
    foldl_dailyDelSum, foldl_dailyComSum]
  refine ⟨?_, ?_, ?_, ?_, ?_, ?_, ?_, ?_⟩ <;>
    simp [bucketAddSum, bucketDelSum, bucketComSum]

/-- Claim C3, counterexample: a single commit whose detail lookup fails
with status 404 contributes nothing to the totals, yet its authored
timestamp is appended to the timestamp sequence, which the claim says
must stay empty. -/
theorem failed_commit_timestamp_counterexample :
    (get_commit_stats [(⟨"a1", "r", T0⟩, ⟨404, 10, 2⟩)]).commitTimes = [T0] ∧
      (get_commit_stats [(⟨"a1", "r", T0⟩, ⟨404, 10, 2⟩)]).totalAdditions = 0 := by
  decide

/-- Claim C3, amended: a commit whose detail lookup fails contributes to
no totals and no buckets, but its authored timestamp IS appended: the
timestamp sequence holds every collected commit in processing order, not
only the successfully detailed ones. -/
theorem aggregator_skip_amended (commits : List (CommitEntry × DetailResult)) :
    (get_commit_stats commits).commitTimes = commits.map (fun cd => cd.1.date) ∧
      (get_commit_stats commits).totalAdditions =
        (get_commit_stats (successful commits)).totalAdditions ∧
      (get_commit_stats commits).totalDeletions =
        (get_commit_stats (successful commits)).totalDeletions ∧
      (get_commit_stats commits).repoStats =
        (get_commit_stats (successful commits)).repoStats ∧
      (get_commit_stats commits).dailyStats =
        (get_commit_stats (successful commits)).dailyStats := by
  unfold get_commit_stats
  refine ⟨?_, ?_, ?_, ?_, ?_⟩
  · rw [foldl_commitTimes]; simp
  · rw [foldl_totalAdditions, foldl_totalAdditions, successful_idem]
  · rw [foldl_totalDeletions, foldl_totalDeletions, successful_idem]
  · rw [foldl_repoStats, foldl_repoStats, foldl_stepRepo_successful]
  · rw [foldl_dailyStats, foldl_dailyStats, foldl_stepDaily_successful]

/-- Claim C5: the cadence computation is not total.  Two collected commits
whose detail lookups fail produce a snapshot with two timestamps and an
empty day map; analyze_productivity then divides the timestamp count by
zero day keys (a ZeroDivisionError in the source), modelled here as none. -/
theorem commits_per_day_div_zero :
    (get_commit_stats [cFail1, cFail2]).commitTimes.length = 2 ∧
      (get_commit_stats [cFail1, cFail2]).dailyStats = [] ∧
      analyze_productivity (toStatsInput (get_commit_stats [cFail1, cFail2])) zeroIn = none := by
  decide

lemma analyze_fields (c p : StatsInput) (r : Report)
    (h : analyze_productivity c p = some r) :
    r.total_change_percentage =
        pctChange ((c.additions + c.deletions : ℕ) : ℚ) ((p.additions + p.deletions : ℕ) : ℚ) ∧
      r.additions_change_percentage = pctChange (c.additions : ℚ) (p.additions : ℚ) ∧
      r.deletions_change_percentage = pctChange (c.deletions : ℚ) (p.deletions : ℚ) ∧
      r.daily_average_changes = dailyAvg c ∧
      r.daily_average_change_percentage = pctChange (dailyAvg c) (dailyAvg p) ∧
      r.weekend_activity = (weekSplit c.dailyStats).1 ∧
      r.weekday_activity = (weekSplit c.dailyStats).2 ∧
      r.weekend_percentage =
        (if 0 < (weekSplit c.dailyStats).1 + (weekSplit c.dailyStats).2 then
          ((weekSplit c.dailyStats).1 : ℚ) /
            (((weekSplit c.dailyStats).1 : ℚ) + ((weekSplit c.dailyStats).2 : ℚ)) * 100
        else 0) ∧
      r.most_active_repositories = (sortDesc (repoActivity c)).take 5 := by
  unfold analyze_productivity at h
  rcases Option.map_eq_some'.mp h with ⟨q, hq, hr⟩
  subst hr
  exact ⟨rfl, rfl, rfl, rfl, rfl, rfl, rfl, rfl, rfl⟩

lemma analyze_cadence (c p : StatsInput) (r : Report)
    (h : analyze_productivity c p = some r) :
    ∃ q, commitCadence c = some q ∧
      r.average_commit_interval_minutes = q.1 / 60 ∧ r.commits_per_day = q.2 := by
  unfold analyze_productivity at h
  rcases Option.map_eq_some'.mp h with ⟨q, hq, hr⟩
  subst hr
  exact ⟨q, hq, rfl, rfl⟩

lemma analyze_zeroIn_eval : analyze_productivity zeroIn zeroIn = some rep0 := by
  unfold analyze_productivity
  rw [show commitCadence zeroIn = some (0, 0) from rfl]
  unfold zeroIn rep0
  simp only [Option.map_some', Option.some.injEq, Report.mk.injEq]
  norm_num [pctChange, dailyAvg, weekSplit, weekStep, repoActivity, sortDesc, commitIntervals]

lemma analyze_c7In_eval : analyze_productivity c7In zeroIn = some rep7 := by
  have hw : weekdayOf ⟨1, 1, 6⟩ = 5 := by decide
  unfold analyze_productivity
  rw [show commitCadence c7In = some (0, 0) from rfl]
  unfold c7In zeroIn rep7
  simp only [Option.map_some', Option.some.injEq, Report.mk.injEq]
  norm_num [pctChange, dailyAvg, weekSplit, weekStep, hw, repoActivity, sortDesc]

lemma analyze_c8In_eval : analyze_productivity c8In zeroIn = some rep8 := by
  unfold analyze_productivity
  rw [show commitCadence c8In = some (0, 0) from rfl]
  unfold c8In zeroIn rep8
  simp only [Option.map_some', Option.some.injEq, Report.mk.injEq]
  norm_num [pctChange, dailyAvg, weekSplit, weekStep, repoActivity, sortDesc, insertByDesc]

lemma analyze_c6In_eval : analyze_productivity c6In zeroIn = some rep6 := by
  have hw : weekdayOf ⟨1, 1, 1⟩ = 0 := by decide
  have hi : commitIntervals [T0, T1, T2] = [60, 120] := by decide
  have hc : commitCadence c6In =
      some ((((commitIntervals [T0, T1, T2]).sum : ℤ) : ℚ) /
          ((commitIntervals [T0, T1, T2]).length : ℚ), 3 / 1) := by
    unfold commitCadence c6In
    norm_num
  rw [hi] at hc
  unfold analyze_productivity
  rw [hc]
  unfold c6In zeroIn rep6
  simp only [Option.map_some', Option.some.injEq, Report.mk.injEq]
  norm_num [pctChange, dailyAvg, weekSplit, weekStep, hw, repoActivity, sortDesc]

/-- Claim C4: the four percentage fields follow the pct_change pattern
with their own previous-period denominators, and the pattern satisfies
the formula for positive denominators, the infinite sentinel for zero
denominators with non-zero current value, zero at equal positive values,
and the sentinel at zero baselines. -/
theorem pct_change_fields (c p : StatsInput) (r : Report) (curr prev x : ℚ)
    (h : analyze_productivity c p = some r) (hprev : 0 < prev) (hcurr : curr ≠ 0)
    (hx : 0 < x) :
    r.total_change_percentage =
        pctChange ((c.additions + c.deletions : ℕ) : ℚ) ((p.additions + p.deletions : ℕ) : ℚ) ∧
      r.additions_change_percentage = pctChange (c.additions : ℚ) (p.additions : ℚ) ∧
      r.deletions_change_percentage = pctChange (c.deletions : ℚ) (p.deletions : ℚ) ∧
      r.daily_average_change_percentage = pctChange (dailyAvg c) (dailyAvg p) ∧
      pctChange curr prev = Pct.fin ((curr - prev) / prev * 100) ∧
      pctChange curr 0 = Pct.inf ∧
      pctChange x x = Pct.fin 0 ∧
      pctChange x 0 = Pct.inf := by
  obtain ⟨h1, h2, h3, _, h5, _, _, _, _⟩ := analyze_fields c p r h
  refine ⟨h1, h2, h3, h5, ?_, ?_, ?_, ?_⟩
  · simp [pctChange, hprev]
  · simp [pctChange]
  · simp [pctChange, hx]
  · simp [pctChange]

/-- Claim C4, witness at concrete inputs. -/
theorem pct_change_fields_witness :
    rep0.total_change_percentage =
        pctChange ((zeroIn.additions + zeroIn.deletions : ℕ) : ℚ)
          ((zeroIn.additions + zeroIn.deletions : ℕ) : ℚ) ∧
      rep0.additions_change_percentage =
        pctChange (zeroIn.additions : ℚ) (zeroIn.additions : ℚ) ∧
      rep0.deletions_change_percentage =
        pctChange (zeroIn.deletions : ℚ) (zeroIn.deletions : ℚ) ∧
      rep0.daily_average_change_percentage = pctChange (dailyAvg zeroIn) (dailyAvg zeroIn) ∧
      pctChange 5 1 = Pct.fin ((5 - 1) / 1 * 100) ∧
      pctChange 5 0 = Pct.inf ∧
      pctChange 2 2 = Pct.fin 0 ∧
      pctChange 2 0 = Pct.inf :=
  pct_change_fields zeroIn zeroIn rep0 5 1 2 analyze_zeroIn_eval (by norm_num) (by norm_num) (by norm_num)

/-- Claim C10: when the previous period has zero additions and zero
deletions, all four percentage fields are the infinite sentinel,
regardless of the current values. -/
theorem zero_baseline_sentinel (c p : StatsInput) (r : Report)
    (h : analyze_productivity c p = some r) (ha : p.additions = 0) (hd : p.deletions = 0) :
    r.total_change_percentage = Pct.inf ∧
      r.additions_change_percentage = Pct.inf ∧
      r.deletions_change_percentage = Pct.inf ∧
      r.daily_average_change_percentage = Pct.inf := by
  obtain ⟨h1, h2, h3, _, h5, _, _, _, _⟩ := analyze_fields c p r h
  have hp : dailyAvg p = 0 := by simp [dailyAvg, ha, hd]
  refine ⟨?_, ?_, ?_, ?_⟩
  · rw [h1]; simp [pctChange, ha, hd]
  · rw [h2]; simp [pctChange, ha]
  · rw [h3]; simp [pctChange, hd]
  · rw [h5, hp]; simp [pctChange]

/-- Claim C10, witness: an all-zero current snapshot against an all-zero
previous snapshot still yields the sentinel in all four fields. -/
theorem zero_baseline_sentinel_witness :
    rep0.total_change_percentage = Pct.inf ∧
      rep0.additions_change_percentage = Pct.inf ∧
      rep0.deletions_change_percentage = Pct.inf ∧
      rep0.daily_average_change_percentage = Pct.inf :=
  zero_baseline_sentinel zeroIn zeroIn rep0 analyze_zeroIn_eval rfl rfl

lemma weekSplit_go (l : List (Day × Bucket)) :
    ∀ acc : ℕ × ℕ, l.foldl weekStep acc = (acc.1 + weekendSum l, acc.2 + weekdaySum l) := by
  induction l with
  | nil => intro acc; simp [weekendSum, weekdaySum]
  | cons kb t ih =>
    intro acc
    rw [List.foldl_cons, ih]
    by_cases h : 5 ≤ weekdayOf kb.1
    · have h' : ¬ weekdayOf kb.1 < 5 := Nat.not_lt.mpr h
      simp [weekStep, h, h', weekendSum, weekdaySum, List.filter_cons]
      omega
    · have h' : weekdayOf kb.1 < 5 := Nat.not_le.mp h
      simp [weekStep, h, h', weekendSum, weekdaySum, List.filter_cons]
      omega

lemma weekSplit_eq (l : List (Day × Bucket)) : weekSplit l = (weekendSum l, weekdaySum l) := by
  rw [weekSplit, weekSplit_go]
  simp

lemma pct_sum_100 (a b : ℕ) (hpos : 0 < a + b) :
    (a : ℚ) / ((a : ℚ) + (b : ℚ)) * 100 + (b : ℚ) / ((a : ℚ) + (b : ℚ)) * 100 = 100 := by
  have h0 : ((a : ℚ) + (b : ℚ)) ≠ 0 := by
    have : (0 : ℚ) < (a : ℚ) + (b : ℚ) := by exact_mod_cast hpos
    exact ne_of_gt this
  field_simp
  ring

/-- Claim C7: each day key is classified as weekend (Saturday or Sunday)
or weekday; the weekend percentage equals weekend over total times 100,
is 0 when the total is 0, and together with the weekday percentage sums
to 100 whenever the total is positive. -/
theorem weekend_weekday_split (c p : StatsInput) (r : Report)
    (h : analyze_productivity c p = some r) :
    r.weekend_activity = weekendSum c.dailyStats ∧
      r.weekday_activity = weekdaySum c.dailyStats ∧
      r.weekend_percentage =
        (if 0 < weekendSum c.dailyStats + weekdaySum c.dailyStats then
          (weekendSum c.dailyStats : ℚ) /
            ((weekendSum c.dailyStats : ℚ) + (weekdaySum c.dailyStats : ℚ)) * 100
        else 0) ∧
      (if 0 < weekendSum c.dailyStats + weekdaySum c.dailyStats then
        r.weekend_percentage +
          (weekdaySum c.dailyStats : ℚ) /
            ((weekendSum c.dailyStats : ℚ) + (weekdaySum c.dailyStats : ℚ)) * 100 = 100
      else r.weekend_percentage = 0) := by
  obtain ⟨_, _, _, _, _, h6, h7, h8, _⟩ := analyze_fields c p r h
  rw [weekSplit_eq] at h6 h7 h8
  refine ⟨h6, h7, h8, ?_⟩
  by_cases hpos : 0 < weekendSum c.dailyStats + weekdaySum c.dailyStats
  · rw [if_pos hpos, h8, if_pos hpos]
    exact pct_sum_100 _ _ hpos
  · rw [if_neg hpos, h8, if_neg hpos]

/-- Claim C7, witness: a snapshot whose single day key is a Saturday. -/
theorem weekend_weekday_split_witness :
    rep7.weekend_activity = weekendSum c7In.dailyStats ∧
      rep7.weekday_activity = weekdaySum c7In.dailyStats ∧
      rep7.weekend_percentage =
        (if 0 < weekendSum c7In.dailyStats + weekdaySum c7In.dailyStats then
          (weekendSum c7In.dailyStats : ℚ) /
            ((weekendSum c7In.dailyStats : ℚ) + (weekdaySum c7In.dailyStats : ℚ)) * 100
        else 0) ∧
      (if 0 < weekendSum c7In.dailyStats + weekdaySum c7In.dailyStats then
        rep7.weekend_percentage +
          (weekdaySum c7In.dailyStats : ℚ) /
            ((weekendSum c7In.dailyStats : ℚ) + (weekdaySum c7In.dailyStats : ℚ)) * 100 = 100
      else rep7.weekend_percentage = 0) :=
  weekend_weekday_split c7In zeroIn rep7 analyze_c7In_eval

/-- Claim C6, counterexample: for timestamps t, t+60s, t+180s in
collection order the analyzer reports an average interval of 1.5 minutes,
not the 2 minutes the claim states. -/
theorem cadence_scenario_counterexample :
    (analyze_productivity c6In zeroIn).map Report.average_commit_interval_minutes =
        some (3 / 2) ∧
      ((3 : ℚ) / 2) ≠ 2 := by
  constructor
  · rw [analyze_c6In_eval]
    rfl
  · norm_num

/-- Claim C6, amended: for a current snapshot whose timestamp sequence is
exactly t, t+60s, t+180s in collection order, the average of consecutive
differences is 90 seconds, reported as 1.5 minutes, and commits_per_day
is 3 divided by the number of day keys. -/
theorem cadence_scenario_amended (c p : StatsInput) (r : Report) (t0 t1 t2 : DateTime)
    (hts : c.commitTimes = [t0, t1, t2])
    (h1 : (toSeconds t1 : ℤ) = (toSeconds t0 : ℤ) + 60)
    (h2 : (toSeconds t2 : ℤ) = (toSeconds t1 : ℤ) + 120)
    (h : analyze_productivity c p = some r) :
    r.average_commit_interval_minutes = 3 / 2 ∧
      r.commits_per_day = 3 / (c.dailyStats.length : ℚ) := by
  obtain ⟨q, hq, hmin, hcpd⟩ := analyze_cadence c p r h
  have hint : commitIntervals c.commitTimes = [60, 120] := by
    rw [hts]
    simp only [commitIntervals, List.tail_cons, List.zip_cons_cons, List.zip_nil_left,
      List.zip_nil_right, List.map_cons, List.map_nil]
    rw [h2, h1]
    simp only [List.cons.injEq, and_true]
    constructor <;> ring
  unfold commitCadence at hq
  rw [hint, hts] at hq
  have h3 : (1 : ℕ) < ([t0, t1, t2] : List DateTime).length := by simp
  rw [if_pos h3] at hq
  by_cases hd : c.dailyStats.length = 0
  · rw [if_pos hd] at hq
    cases hq
  · rw [if_neg hd] at hq
    obtain rfl := Option.some.inj hq
    constructor
    · rw [hmin]
      norm_num
    · rw [hcpd]
      simp

/-- Claim C6, witness at the concrete scenario. -/
theorem cadence_scenario_witness :
    rep6.average_commit_interval_minutes = 3 / 2 ∧
      rep6.commits_per_day = 3 / (c6In.dailyStats.length : ℚ) :=
  cadence_scenario_amended c6In zeroIn rep6 T0 T1 T2 rfl (by decide) (by decide)
    analyze_c6In_eval

lemma insertByDesc_perm (x : String × ℕ) (l : List (String × ℕ)) :
    (insertByDesc x l).Perm (x :: l) := by
  induction l with
  | nil => exact List.Perm.refl _
  | cons y ys ih =>
    by_cases h : y.2 ≤ x.2
    · simp only [insertByDesc, if_pos h]
      exact List.Perm.refl _
    · simp only [insertByDesc, if_neg h]
      exact (ih.cons y).trans (List.Perm.swap x y ys)

lemma sortDesc_perm (l : List (String × ℕ)) : (sortDesc l).Perm l := by
  induction l with
  | nil => exact List.Perm.refl _
  | cons x xs ih =>
    simp only [sortDesc]
    exact (insertByDesc_perm x (sortDesc xs)).trans (ih.cons x)

lemma insertByDesc_pairwise (x : String × ℕ) (l : List (String × ℕ))
    (h : l.Pairwise (fun a b => b.2 ≤ a.2)) :
    (insertByDesc x l).Pairwise (fun a b => b.2 ≤ a.2) := by
  induction l with
  | nil => simp [insertByDesc]
  | cons y ys ih =>
    rw [List.pairwise_cons] at h
    obtain ⟨hy, hys⟩ := h
    by_cases hxy : y.2 ≤ x.2
    · simp only [insertByDesc, if_pos hxy]
      refine List.Pairwise.cons ?_ (List.Pairwise.cons hy hys)
      intro z hz
      rcases List.mem_cons.mp hz with rfl | hz'
      · exact hxy
      · exact le_trans (hy z hz') hxy
    · simp only [insertByDesc, if_neg hxy]
      refine List.Pairwise.cons ?_ (ih hys)
      intro z hz
      rcases List.mem_cons.mp ((insertByDesc_perm x ys).mem_iff.mp hz) with rfl | hz'
      · exact le_of_not_le hxy
      · exact hy z hz'

lemma sortDesc_pairwise (l : List (String × ℕ)) :
    (sortDesc l).Pairwise (fun a b => b.2 ≤ a.2) := by
  induction l with
  | nil => simp [sortDesc]
  | cons x xs ih =>
    simp only [sortDesc]
    exact insertByDesc_pairwise x (sortDesc xs) ih

lemma insertByDesc_filter (x : String × ℕ) (l : List (String × ℕ)) (t : ℕ) :
    (insertByDesc x l).filter (fun z => z.2 == t) =
      if x.2 = t then x :: l.filter (fun z => z.2 == t)
      else l.filter (fun z => z.2 == t) := by
  induction l with
  | nil =>
    by_cases hx : x.2 = t <;>
      simp [insertByDesc, List.filter_cons, List.filter_nil, hx]
  | cons y ys ih =>
    by_cases hxy : y.2 ≤ x.2
    · simp only [insertByDesc, if_pos hxy]
      by_cases hx : x.2 = t <;> by_cases hy : y.2 = t <;>
        simp [List.filter_cons, hx, hy]
    · have hlt : x.2 < y.2 := Nat.not_le.mp hxy
      simp only [insertByDesc, if_neg hxy, List.filter_cons, ih]
      by_cases hx : x.2 = t <;> by_cases hy : y.2 = t
      · omega
      · simp [hx, hy]
      · simp [hx, hy]
      · simp [hx, hy]

lemma sortDesc_filter (l : List (String × ℕ)) (t : ℕ) :
    (sortDesc l).filter (fun z => z.2 == t) = l.filter (fun z => z.2 == t) := by
  induction l with
  | nil => rfl
  | cons x xs ih =>
    simp only [sortDesc]
    rw [insertByDesc_filter]
    by_cases hx : x.2 = t <;> simp [List.filter_cons, hx, ih]

/-- Claim C8: most_active_repositories is the first 5 elements of the
repository activity pairs under a stable descending sort by total
changes: the sorted list is a permutation of the original pairs, is
pairwise descending, and preserves the original encounter order within
every equal-total class (its restriction to any total value equals the
original restriction). -/
theorem most_active_ranking (c p : StatsInput) (r : Report) (t : ℕ)
    (h : analyze_productivity c p = some r) :
    r.most_active_repositories = (sortDesc (repoActivity c)).take 5 ∧
      (sortDesc (repoActivity c)).Perm (repoActivity c) ∧
      (sortDesc (repoActivity c)).Pairwise (fun a b => b.2 ≤ a.2) ∧
      (sortDesc (repoActivity c)).filter (fun z => z.2 == t) =
        (repoActivity c).filter (fun z => z.2 == t) := by
  obtain ⟨_, _, _, _, _, _, _, _, h9⟩ := analyze_fields c p r h
  exact ⟨h9, sortDesc_perm _, sortDesc_pairwise _, sortDesc_filter _ t⟩

/-- Claim C8, witness: two repositories tie on total 1 behind a total of
2; the tie keeps its encounter order. -/
theorem most_active_ranking_witness :
    rep8.most_active_repositories = (sortDesc (repoActivity c8In)).take 5 ∧
      (sortDesc (repoActivity c8In)).Perm (repoActivity c8In) ∧
      (sortDesc (repoActivity c8In)).Pairwise (fun a b => b.2 ≤ a.2) ∧
      (sortDesc (repoActivity c8In)).filter (fun z => z.2 == 1) =
        (repoActivity c8In).filter (fun z => z.2 == 1) :=
  most_active_ranking c8In zeroIn rep8 1 analyze_c8In_eval

lemma fetchPages_items {α : Type} (rq : ℕ → Req) :
    ∀ (fuel : ℕ) (L : List α) (p : ℕ), 1 ≤ p →
      (L.drop ((p - 1) * 100)).length + 100 ≤ fuel * 100 →
      (fetchPages (pageOf L) rq p fuel).2 = L.drop ((p - 1) * 100) := by
  intro fuel
  induction fuel with
  | zero =>
    intro L p hp hlen
    exact absurd hlen (by omega)
  | succ f ih =>
    intro L p hp hlen
    rw [fetchPages]
    by_cases hre : (pageOf L p).isEmpty
    · rw [if_pos hre]
      have hnil : L.drop ((p - 1) * 100) = [] := by
        rcases List.take_eq_nil_iff.mp (List.isEmpty_iff.mp hre) with h | h
        · exact absurd h (by norm_num)
        · exact h
      simp [hnil]
    · rw [if_neg hre]
      have hne : L.drop ((p - 1) * 100) ≠ [] := by
        intro h0
        exact hre (by simp [pageOf, h0])
      have harith : (p + 1 - 1) * 100 = (p - 1) * 100 + 100 := by omega
      have hdrop : L.drop ((p + 1 - 1) * 100) = (L.drop ((p - 1) * 100)).drop 100 := by
        rw [harith, ← List.drop_drop]
      have hpos : 1 ≤ (L.drop ((p - 1) * 100)).length := List.length_pos.mpr hne
      have hlen2 : (L.drop ((p + 1 - 1) * 100)).length + 100 ≤ f * 100 := by
        rw [hdrop, List.length_drop]
        omega
      have hrec := ih L (p + 1) (by omega) hlen2
      rw [hdrop] at hrec
      show pageOf L p ++ (fetchPages (pageOf L) rq (p + 1) f).2 = L.drop ((p - 1) * 100)
      rw [hrec]
      exact List.take_append_drop 100 _

lemma fetchPages_req_head {α : Type} (serve : ℕ → List α) (rq : ℕ → Req) (p f : ℕ) :
    rq p ∈ (fetchPages serve rq p (f + 1)).1 := by
  rw [fetchPages]
  by_cases h : (serve p).isEmpty
  · rw [if_pos h]
    exact List.mem_cons_self _ _
  · rw [if_neg h]
    exact List.mem_cons_self _ _

lemma get_org_repos_snd (db : ServerDB) (org : String) :
    (get_org_repos db org).2 = db.repos := by
  unfold get_org_repos
  have h := fetchPages_items (fun p => Req.repoList org p) (db.repos.length + 1) db.repos 1
    (le_refl 1) (by simp; omega)
  simpa using h

lemma fetchRepoCommits_snd (db : ServerDB) (org username : String) (s e : DateTime)
    (repo : String) :
    (fetchRepoCommits db org username s e repo).2 = serverListCommits db repo username s e := by
  unfold fetchRepoCommits
  have h := fetchPages_items (fun p => Req.commitList org repo username s e p)
    ((serverListCommits db repo username s e).length + 1) (serverListCommits db repo username s e)
    1 (le_refl 1) (by simp; omega)
  simpa using h

lemma mem_user_commits (db : ServerDB) (org username : String) (s e : DateTime) (c : Commit) :
    c ∈ (get_user_commits db org username s e).2 ↔
      ∃ repo ∈ db.repos, c ∈ serverListCommits db repo username s e := by
  unfold get_user_commits
  rw [get_org_repos_snd]
  have h : ∀ (repos : List String) (acc : List Req × List Commit),
      c ∈ (repos.foldl (fun acc repo =>
          (acc.1 ++ (fetchRepoCommits db org username s e repo).1,
            acc.2 ++ (fetchRepoCommits db org username s e repo).2)) acc).2 ↔
        c ∈ acc.2 ∨ ∃ repo ∈ repos, c ∈ serverListCommits db repo username s e := by
    intro repos
    induction repos with
    | nil => intro acc; simp
    | cons repo rs ih =>
      intro acc
      rw [List.foldl_cons, ih]
      simp only [List.mem_append, fetchRepoCommits_snd, List.mem_cons]
      constructor
      · rintro ((h1 | h1) | ⟨r, hr, hmem⟩)
        · exact Or.inl h1
        · exact Or.inr ⟨repo, Or.inl rfl, h1⟩
        · exact Or.inr ⟨r, Or.inr hr, hmem⟩
      · rintro (h1 | ⟨r, (rfl | hr), hmem⟩)
        · exact Or.inl (Or.inl h1)
        · exact Or.inl (Or.inr hmem)
        · exact Or.inr ⟨r, hr, hmem⟩
  rw [h]
  simp

lemma foldl_fst_mem (db : ServerDB) (org username : String) (s e : DateTime) (x : Req) :
    ∀ (repos : List String) (acc : List Req × List Commit), x ∈ acc.1 →
      x ∈ (repos.foldl (fun acc repo =>
          (acc.1 ++ (fetchRepoCommits db org username s e repo).1,
            acc.2 ++ (fetchRepoCommits db org username s e repo).2)) acc).1 := by
  intro repos
  induction repos with
  | nil => intro acc hx; exact hx
  | cons repo rs ih =>
    intro acc hx
    rw [List.foldl_cons]
    exact ih _ (List.mem_append.mpr (Or.inl hx))

lemma get_org_repos_req (db : ServerDB) (org : String) :
    Req.repoList org 1 ∈ (get_org_repos db org).1 := by
  unfold get_org_repos
  exact fetchPages_req_head _ _ 1 _

/-- Claim C2, counterexample: the implementation applies no post-filter,
so under an upstream whose until parameter is inclusive, a commit
authored exactly at the until instant appears in that period's collected
sequence, and also in the next period's sequence: it double-counts. -/
theorem until_boundary_counterexample :
    cBoundary.date = Tfeb ∧
      (get_user_commits dbInc "o" "u" T0 Tfeb).2 = [cBoundary] ∧
      (get_user_commits dbInc "o" "u" Tfeb Tmar).2 = [cBoundary] := by
  decide

/-- Claim C2, amended: get_user_commits forwards the window to the
upstream without any post-filter, so strict end-exclusivity holds exactly
when the upstream's until semantics are strict: in that case a commit
authored at the until instant never appears in the period's sequence, and
a database commit of an enumerated repository authored in the next
window always appears in the next period's sequence. -/
theorem collector_no_postfilter (db : ServerDB) (org username : String)
    (s e e2 : DateTime) (c cnext : Commit)
    (hsem : db.untilInclusive = false)
    (hc : c ∈ (get_user_commits db org username s e).2)
    (h1 : cnext ∈ db.commits) (h2 : cnext.repo ∈ db.repos) (h3 : cnext.author = username)
    (h4 : toSeconds e ≤ toSeconds cnext.date) (h5 : toSeconds cnext.date < toSeconds e2) :
    toSeconds c.date ≠ toSeconds e ∧
      cnext ∈ (get_user_commits db org username e e2).2 := by
  constructor
  · obtain ⟨repo, hrepo, hmem⟩ := (mem_user_commits db org username s e c).mp hc
    unfold serverListCommits at hmem
    rw [List.mem_filter, hsem] at hmem
    obtain ⟨-, hpred⟩ := hmem
    simp only [Bool.false_eq_true, if_false, Bool.and_eq_true, beq_iff_eq, dtLe, dtLt,
      decide_eq_true_eq] at hpred
    exact ne_of_lt hpred.2
  · rw [mem_user_commits]
    refine ⟨cnext.repo, h2, ?_⟩
    unfold serverListCommits
    rw [List.mem_filter, hsem]
    refine ⟨h1, ?_⟩
    simp [h3, dtLe, dtLt, h4, h5]

/-- Claim C2, witness: with a strict upstream, the in-window commit is
collected and is not at the boundary, and the boundary commit appears in
the following period. -/
theorem collector_no_postfilter_witness :
    toSeconds cInside.date ≠ toSeconds Tfeb ∧
      cBoundary ∈ (get_user_commits dbExc "o" "u" Tfeb Tmar).2 :=
  collector_no_postfilter dbExc "o" "u" T0 Tfeb Tmar cInside cBoundary rfl (by decide)
    (by decide) (by decide) rfl (by decide) (by decide)

/-- Claim C9, counterexample: no configuration validation exists.  For a
call whose start instant is after its end instant and whose username is
empty, the repository-list request is still issued and the call returns
normally, where the claim demands rejection before any network call. -/
theorem no_validation_counterexample :
    Req.repoList "o" 1 ∈ (get_user_commits dbExc "o" "" Tfeb T0).1 := by
  decide

/-- Claim C9, amended: the pipeline performs no validation of the date
range or the identifiers: even when start is not before end, no error is
raised and the repository enumeration request for page 1 is issued. -/
theorem no_validation_amended (db : ServerDB) (org username : String) (s e : DateTime)
    (hinv : toSeconds e ≤ toSeconds s) :
    Req.repoList org 1 ∈ (get_user_commits db org username s e).1 := by
  unfold get_user_commits
  exact foldl_fst_mem db org username s e _ _ _ (get_org_repos_req db org)

/-- Claim C9, witness at a concrete inverted range with an empty
username. -/
theorem no_validation_witness :
    Req.repoList "org1" 1 ∈ (get_user_commits dbExc "org1" "" Tfeb T0).1 :=
  no_validation_amended dbExc "org1" "" Tfeb T0 (by decide)

end GithubStats
